import Mathlib

/-!
Verification development for the incremental-subtitle audio player
(`src/core/audio_player.py`, `src/core/subtitle_parser.py`,
`src/ui_qt/main_window.py`, `src/ui/main_window.py`).

Python `float` second-values are modelled as `ℚ`; Python `int` as `ℤ`;
`None`-able values as `Option`; dictionaries as association lists; the
`set` of in-flight job keys as a duplicate-free list.  `round(x, 3)` is
modelled as rounding `1000*x` to the nearest integer (Python's float
`round` agrees except on exact half-millisecond ties, which no statement
below touches), and Python `int(x)` as truncation of the rational toward
zero.  All definitions are translated from the repository source; the
file states and proves/refutes the frozen specification claims about
them.
-/

/-- Mathematical floor of a rational, via floor division of the
numerator by the (positive) denominator. -/
def rat_floor_z (q : ℚ) : ℤ := Int.fdiv q.num q.den

/-- Python `int(x)` on a float: truncation toward zero. -/
def py_int (q : ℚ) : ℤ := Int.tdiv q.num q.den

/-- Python `round(x, 3)` scaled to an integer count of milliseconds:
`round_milli q` is `round(1000*q)` (ties rounding up; Python's
banker-rounding differs only on exact half-millisecond ties). -/
def round_milli (q : ℚ) : ℤ := rat_floor_z (1000 * q + 1/2)

/-- `Subtitle` dataclass from `src/core/subtitle_parser.py`:
`index`, `start_time`, `end_time`, `text`. -/
structure Subtitle where
  index : ℤ
  start_time : ℚ
  end_time : ℚ
  text : String
deriving DecidableEq, Repr

/-- The dedup identity key used by the merge passes:
`(round(start_time, 3), round(end_time, 3), text)`. -/
def dedup_key (s : Subtitle) : ℤ × ℤ × String :=
  (round_milli s.start_time, round_milli s.end_time, s.text)

/-- The sort key of the merge passes: `(start_time, end_time)`. -/
def sort_key (s : Subtitle) : ℚ × ℚ := (s.start_time, s.end_time)

/-- Lexicographic order on `(start_time, end_time)` pairs, matching
Python tuple comparison for the sort key. -/
def pair_le (a b : ℚ × ℚ) : Prop :=
  a.1 < b.1 ∨ (a.1 = b.1 ∧ a.2 ≤ b.2)

instance pair_le_dec (a b : ℚ × ℚ) : Decidable (pair_le a b) := by
  unfold pair_le
  exact inferInstance

/-- Stable insertion step: place `c` before the first element whose sort
key is `≥` that of `c`.  Together with `sort_subtitles` this reproduces
the (stable) Python `list.sort(key=lambda s: (s.start_time, s.end_time))`. -/
def insert_sorted (c : Subtitle) : List Subtitle → List Subtitle
  | [] => [c]
  | d :: ds =>
    if pair_le (sort_key c) (sort_key d) then c :: d :: ds
    else d :: insert_sorted c ds

/-- Stable sort by `(start_time, end_time)`. -/
def sort_subtitles : List Subtitle → List Subtitle
  | [] => []
  | c :: cs => insert_sorted c (sort_subtitles cs)

/-- The left-to-right dedup scan of the merge passes: drop an element
whose key equals the running `last_key` (initially `None`). -/
def dedup_pass : Option (ℤ × ℤ × String) → List Subtitle → List Subtitle
  | _, [] => []
  | last, s :: rest =>
    if some (dedup_key s) = last then dedup_pass last rest
    else s :: dedup_pass (some (dedup_key s)) rest

/-- The keep-condition of `_merge_subtitles` (qt) for the `"base"`
model: `s.end_time < start_seconds or s.start_time > end_seconds`. -/
def out_of_window (start_seconds end_seconds : ℤ) (s : Subtitle) : Bool :=
  decide (s.end_time < (start_seconds : ℚ)) || decide ((end_seconds : ℚ) < s.start_time)

/-- `MainWindow._merge_subtitles` from `src/ui_qt/main_window.py`
(lines 725-755), with the current timeline passed explicitly instead of
read from the player cache: for the `"base"` model keep only existing
captions outside the window then append the incoming ones, otherwise
plainly append; sort by `(start_time, end_time)` and run the dedup scan. -/
def merge_subtitles (current new_subs : List Subtitle) (start_seconds end_seconds : ℤ)
    (model : String) : List Subtitle :=
  let merged :=
    if model = "base" then
      current.filter (fun s => out_of_window start_seconds end_seconds s) ++ new_subs
    else
      current ++ new_subs
  dedup_pass none (sort_subtitles merged)

/-- Helper for `_offset_subtitles`: Python `enumerate(subtitles, start=1)`
advances the index on every element, also on the skipped empty-text ones. -/
def offset_subtitles_from (offset : ℚ) : ℤ → List Subtitle → List Subtitle
  | _, [] => []
  | i, s :: rest =>
    let t := s.text.trim
    if t = "" then offset_subtitles_from offset (i + 1) rest
    else ⟨i, s.start_time + offset, s.end_time + offset, t⟩ :: offset_subtitles_from offset (i + 1) rest

/-- `MainWindow._offset_subtitles` from `src/ui_qt/main_window.py`
(lines 708-723): renumber from 1, shift both times by `offset`, strip
caption text and drop captions whose stripped text is empty. -/
def offset_subtitles (subtitles : List Subtitle) (offset : ℚ) : List Subtitle :=
  offset_subtitles_from offset 1 subtitles

/-- `SubtitleParser.find_subtitle_by_time` from
`src/core/subtitle_parser.py` (lines 81-96): first subtitle with
`start_time <= current_time <= end_time`, else `None`. -/
def find_subtitle_by_time (subtitles : List Subtitle) (current_time : ℚ) : Option Subtitle :=
  match subtitles with
  | [] => none
  | s :: rest =>
    if s.start_time ≤ current_time ∧ current_time ≤ s.end_time then some s
    else find_subtitle_by_time rest current_time

/-- Association-list lookup, modelling Python `dict` access. -/
def assoc_get {α : Type} : List (String × α) → String → Option α
  | [], _ => none
  | (k', v) :: rest, k => if k' = k then some v else assoc_get rest k

/-- Python `dict.get(k, d)`. -/
def assoc_getD {α : Type} (l : List (String × α)) (k : String) (d : α) : α :=
  (assoc_get l k).getD d

/-- Python `dict[k] = v`. -/
def assoc_set {α : Type} : List (String × α) → String → α → List (String × α)
  | [], k, v => [(k, v)]
  | (k', v') :: rest, k, v =>
    if k' = k then (k, v) :: rest else (k', v') :: assoc_set rest k v

/-- One queued chunk job of the qt window: the dict built in
`_enqueue_chunk_job` (`path`, `start`, `seconds`, `model`, `generation`). -/
structure ChunkJob where
  path : String
  start : ℤ
  seconds : ℤ
  model : String
  generation : ℤ
deriving DecidableEq, Repr

/-- The in-flight dedup key `(path, start_seconds, model, generation)`. -/
def job_key (path : String) (start_seconds : ℤ) (model : String) (generation : ℤ) :
    String × ℤ × String × ℤ :=
  (path, start_seconds, model, generation)

/-- The mutable coordination state of the qt `MainWindow` relevant to
transcription scheduling, merging and staleness: generation counter,
active file, per-path caches and counters, in-flight key set (as a
duplicate-free list) and the two job queues (FIFO lists). -/
structure CoordState where
  current_generation : ℤ
  current_file : Option String
  current_subtitles : List Subtitle
  subtitle_cache : List (String × List Subtitle)
  transcribing_paths : List String
  inflight : List (String × ℤ × String × ℤ)
  urgent_queue : List ChunkJob
  bg_queue : List ChunkJob
  tiny_next_start : List (String × ℤ)
  base_next_start : List (String × ℤ)
  closing_ui : Bool
  loading_folder : Bool
  was_playing_track : Bool
  handling_auto_next : Bool
deriving DecidableEq, Repr

/-- `MainWindow._enqueue_chunk_job` (qt, lines 553-581): no-op for a
non-positive length or an in-flight duplicate key, otherwise record the
key and put the job on the urgent or background queue. -/
def enqueue_chunk_job (st : CoordState) (path : String) (start_seconds seconds : ℤ)
    (model : String) (generation : ℤ) (urgent : Bool) : CoordState :=
  if seconds ≤ 0 then st
  else
    let key := job_key path start_seconds model generation
    if key ∈ st.inflight then st
    else
      let st' := { st with inflight := key :: st.inflight }
      let job : ChunkJob := ⟨path, start_seconds, seconds, model, generation⟩
      if urgent then { st' with urgent_queue := st'.urgent_queue ++ [job] }
      else { st' with bg_queue := st'.bg_queue ++ [job] }

/-- `MainWindow._is_stale_job` (qt, lines 660-664): stale when the
generation no longer matches, or the active file is no longer the job's
path. -/
def is_stale_job (st : CoordState) (path : String) (generation : ℤ) : Bool :=
  if generation ≠ st.current_generation then true
  else decide (st.current_file ≠ some path)

/-- `MainWindow._mark_inflight_done` (qt, lines 666-668): remove the
job's key from the in-flight set. -/
def mark_inflight_done (st : CoordState) (path : String) (start_seconds : ℤ)
    (model : String) (generation : ℤ) : CoordState :=
  { st with inflight := st.inflight.erase (job_key path start_seconds model generation) }

/-- `AudioPlayer.set_cached_subtitles` (`src/core/audio_player.py`,
lines 81-87): store into the cache and, when the path is the current
file, also replace the currently displayed subtitles. -/
def set_cached_subtitles (st : CoordState) (path : String) (subs : List Subtitle) : CoordState :=
  let st' := { st with subtitle_cache := assoc_set st.subtitle_cache path subs }
  if st'.current_file = some path then { st' with current_subtitles := subs } else st'

/-- The current-timeline selection at the top of `_merge_subtitles`
(qt, lines 733-738): the cache entry when present, else the live
subtitles when the path is the current file, else empty. -/
def current_for_merge (st : CoordState) (path : String) : List Subtitle :=
  match assoc_get st.subtitle_cache path with
  | some l => l
  | none => if st.current_file = some path then st.current_subtitles else []

/-- Largest `end_time` of a non-empty caption list (Python `max`). -/
def max_end_time : List Subtitle → ℚ
  | [] => 0
  | s :: rest => rest.foldl (fun m x => max m x.end_time) s.end_time

/-- `MainWindow._get_cached_coverage` (qt, lines 757-764). -/
def get_cached_coverage (st : CoordState) (path : String) : ℚ :=
  let subs0 := assoc_getD st.subtitle_cache path []
  let subs := if subs0 = [] ∧ st.current_file = some path then st.current_subtitles else subs0
  if subs = [] then 0 else max_end_time subs

/-- The subtitle-relevant scheduler configuration keys, with the
defaults used by the qt window. -/
structure SchedulerConfig where
  subtitle_chunk_lead_seconds : ℤ
  subtitle_preview_seconds : ℤ
  base_chunk_seconds : ℤ
  upgrade_start_after_seconds : ℤ
  enable_full_transcription : Bool
deriving DecidableEq, Repr

/-- The playback-engine facts a scheduler tick reads from the player
and the pygame mixer. -/
structure PlaybackInputs where
  is_playing : Bool
  is_paused : Bool
  position : ℚ
  current_duration : ℚ
  mixer_busy : Bool
  playlist_nonempty : Bool
deriving DecidableEq, Repr

/-- `MainWindow._tick_transcription_scheduler` (qt, lines 471-551).
The two end-of-playback watchdog branches call
`_handle_playback_end` (a playback transition that enqueues nothing and
does not touch the scheduling state here modelled) and return; they are
modelled as returning the state unchanged.  Python `int(...)` on the
non-negative position/coverage floats is `py_int`. -/
def tick_transcription_scheduler (cfg : SchedulerConfig) (st : CoordState)
    (pb : PlaybackInputs) : CoordState :=
  if st.closing_ui || st.loading_folder then st
  else if st.was_playing_track && !pb.is_playing && !pb.is_paused
      && st.current_file.isSome && pb.playlist_nonempty && !st.handling_auto_next then
    st
  else if st.was_playing_track && pb.is_playing && !pb.is_paused
      && decide (0 < pb.current_duration) && !st.handling_auto_next
      && decide (pb.current_duration - 3/10 ≤ pb.position) && !pb.mixer_busy then
    st
  else if !pb.is_playing || pb.is_paused then st
  else
    match st.current_file with
    | none => st
    | some path =>
      if path ∉ st.transcribing_paths then st
      else
        let generation := st.current_generation
        let tiny_next := assoc_getD st.tiny_next_start path 0
        let base_next := assoc_getD st.base_next_start path 0
        let lead_seconds := cfg.subtitle_chunk_lead_seconds
        let tiny_chunk := cfg.subtitle_preview_seconds
        let base_chunk := cfg.base_chunk_seconds
        let upgrade_start := cfg.upgrade_start_after_seconds
        let st1 :=
          if tiny_next ≤ py_int (pb.position + (lead_seconds : ℚ)) then
            let st' := enqueue_chunk_job st path tiny_next tiny_chunk "base" generation true
            { st' with tiny_next_start := assoc_set st'.tiny_next_start path (tiny_next + tiny_chunk) }
          else st
        if !cfg.enable_full_transcription then st1
        else
          let tiny_covered := get_cached_coverage st1 path
          if tiny_covered < (upgrade_start : ℚ) then st1
          else if base_next ≤ py_int (pb.position + (lead_seconds : ℚ))
              ∧ base_next + base_chunk ≤ py_int (tiny_covered + 1) then
            let st2 := enqueue_chunk_job st1 path base_next base_chunk "base" generation false
            { st2 with base_next_start := assoc_set st2.base_next_start path (base_next + base_chunk) }
          else st1

/-- One iteration of `MainWindow._transcription_worker` (qt, lines
583-647) on a dequeued job, with the audio extraction outcome and the
ASR call outcome supplied as oracles (`extract_ok`: whether
`_make_preview_wav` produced a file; `asr`: the
`transcribe_to_subtitles` result or the raised exception's message). -/
def transcription_worker_step (st : CoordState) (job : ChunkJob) (extract_ok : Bool)
    (asr : Except String (List Subtitle)) : CoordState :=
  if job.path = "" ∨ job.seconds ≤ 0 then
    mark_inflight_done st job.path job.start job.model job.generation
  else if is_stale_job st job.path job.generation then
    mark_inflight_done st job.path job.start job.model job.generation
  else if !extract_ok then
    mark_inflight_done st job.path job.start job.model job.generation
  else
    match asr with
    | .error _ => mark_inflight_done st job.path job.start job.model job.generation
    | .ok result_subs =>
      if is_stale_job st job.path job.generation then
        mark_inflight_done st job.path job.start job.model job.generation
      else
        let offset_subs := offset_subtitles result_subs (job.start : ℚ)
        if offset_subs = [] then
          mark_inflight_done st job.path job.start job.model job.generation
        else
          let merged := merge_subtitles (current_for_merge st job.path) offset_subs
            job.start (job.start + job.seconds) job.model
          mark_inflight_done (set_cached_subtitles st job.path merged)
            job.path job.start job.model job.generation

/-- The tk `MainWindow` state relevant to chunk-result handling
(`src/ui/main_window.py`): the player's current file and subtitles, the
subtitle cache and the per-path `_preview_next_start` counters
(float-valued in the source). -/
structure TkState where
  current_file : Option String
  current_subtitles : List Subtitle
  subtitle_cache : List (String × List Subtitle)
  preview_next_start : List (String × ℚ)
deriving DecidableEq, Repr

/-- The offset loop of the tk worker (`src/ui/main_window.py`, lines
589-600): renumber from 1 and shift both times; no empty-text filtering
in this variant. -/
def tk_offset_subs (offset : ℚ) : ℤ → List Subtitle → List Subtitle
  | _, [] => []
  | i, s :: rest =>
    ⟨i, s.start_time + offset, s.end_time + offset, s.text⟩ :: tk_offset_subs offset (i + 1) rest

/-- `AudioPlayer.set_cached_subtitles` acting on the tk state. -/
def tk_set_cached (st : TkState) (path : String) (subs : List Subtitle) : TkState :=
  let st' := { st with subtitle_cache := assoc_set st.subtitle_cache path subs }
  if st'.current_file = some path then { st' with current_subtitles := subs } else st'

/-- The counter advance `_preview_next_start[path] =
max(_preview_next_start.get(path, 0.0), target)` of the tk worker. -/
def tk_advance_preview_start (s : TkState) (path : String) (target : ℚ) : TkState :=
  { s with preview_next_start :=
      assoc_set s.preview_next_start path (max (assoc_getD s.preview_next_start path 0) target) }

/-- The chunk-result handling of `_transcription_worker` in
`src/ui/main_window.py` (lines 580-622), from the point where the ASR
call has returned `chunk_subs` for the window
`[start_seconds, start_seconds + seconds)`: an empty result only
advances `_preview_next_start` (to `max(old, start+seconds)`); a
non-empty result is offset, appended to the cached timeline, sorted,
deduped, stored, and then the counter is advanced the same way. -/
def tk_handle_chunk_result (st : TkState) (path : String) (start_seconds seconds : ℤ)
    (chunk_subs : List Subtitle) : TkState :=
  let advanced := fun (s : TkState) =>
    tk_advance_preview_start s path ((start_seconds + seconds : ℤ) : ℚ)
  if chunk_subs = [] then advanced st
  else
    let offset_subs := tk_offset_subs (start_seconds : ℚ) 1 chunk_subs
    let merged0 := if st.current_file = some path then st.current_subtitles else []
    let merged1 :=
      match assoc_get st.subtitle_cache path with
      | some cached => cached
      | none => merged0
    let deduped := dedup_pass none (sort_subtitles (merged1 ++ offset_subs))
    advanced (tk_set_cached st path deduped)

/-- The player state of `AudioPlayer` (`src/core/audio_player.py`). -/
structure PlayerState where
  current_file : Option String
  playlist : List String
  current_index : ℤ
  current_duration : ℚ
  current_subtitles : List Subtitle
  subtitle_cache : List (String × List Subtitle)
  is_playing : Bool
  is_paused : Bool
  volume : ℚ
deriving DecidableEq, Repr

/-- The player state right after `AudioPlayer.__init__`. -/
def initial_player : PlayerState :=
  { current_file := none
    playlist := []
    current_index := -1
    current_duration := 0
    current_subtitles := []
    subtitle_cache := []
    is_playing := false
    is_paused := false
    volume := 1 }

/-- The filesystem and decoder facts `load_file` consults, as oracles:
file existence, the parsed sidecar subtitles (or a parse failure), and
the decoded audio duration (or a decode failure). -/
structure FileSystem where
  path_exists : String → Bool
  srt_parse : String → Except Unit (List Subtitle)
  audio_duration : String → Except Unit ℚ

/-- `AudioPlayer.SUPPORTED_FORMATS`: `('.mp3', '.m4a', '.wav', '.wma')`. -/
def supported_formats : List String := [".mp3", ".m4a", ".wav", ".wma"]

/-- The last path component (after the last `/` or `\`), as in
`pathlib.PurePath.name`. -/
def last_component (p : String) : String :=
  String.mk ((p.toList.reverse.takeWhile (fun c => c ≠ '/' ∧ c ≠ '\\')).reverse)

/-- Index of the last `.` of a character list, if any. -/
def rfind_dot : List Char → ℕ → Option ℕ → Option ℕ
  | [], _, acc => acc
  | c :: rest, i, acc => rfind_dot rest (i + 1) (if c = '.' then some i else acc)

/-- `pathlib.PurePath.suffix`: the final `.`-suffix of the name, empty
unless the last dot sits strictly inside the name (`0 < i < len - 1`). -/
def path_suffix (p : String) : String :=
  let name := (last_component p).toList
  match rfind_dot name 0 none with
  | none => ""
  | some i => if 0 < i ∧ i < name.length - 1 then String.mk (name.drop i) else ""

/-- Python `str.lower()` (ASCII case, which covers the extension set). -/
def lower_string (s : String) : String := String.mk (s.toList.map Char.toLower)

/-- `os.path.splitext(p)[0] + ".srt"` from
`src/utils/file_utils.get_srt_file_path`: replace the final suffix by
`.srt` (append it when there is none). -/
def srt_file_path (p : String) : String :=
  let suffix := path_suffix p
  String.mk (p.toList.take (p.length - suffix.length)) ++ ".srt"

/-- `AudioPlayer.load_file` (`src/core/audio_player.py`, lines 89-132):
fail (returning `False` and leaving the state untouched) when the file
is missing or its lower-cased extension is unsupported; otherwise set
`current_file`, load subtitles (memory cache first, then the sidecar
SRT file, empty on parse failure or absence) and the audio duration
(0 on decode failure), and return `True`. -/
def load_file (fs : FileSystem) (st : PlayerState) (file_path : String) :
    Bool × PlayerState :=
  if !fs.path_exists file_path then (false, st)
  else if lower_string (path_suffix file_path) ∉ supported_formats then (false, st)
  else
    let st1 := { st with current_file := some file_path }
    let subs :=
      match assoc_get st1.subtitle_cache file_path with
      | some cached => cached
      | none =>
        let srt_path := srt_file_path file_path
        if fs.path_exists srt_path then
          match fs.srt_parse srt_path with
          | .ok parsed => parsed
          | .error _ => []
        else []
    let st2 := { st1 with current_subtitles := subs }
    let dur :=
      match fs.audio_duration file_path with
      | .ok d => d
      | .error _ => 0
    (true, { st2 with current_duration := dur })

/-- `AudioPlayer.set_volume` (`src/core/audio_player.py`, lines
311-319): store `max(0.0, min(1.0, volume))`. -/
def set_volume (st : PlayerState) (volume : ℚ) : PlayerState :=
  { st with volume := max 0 (min 1 volume) }

/-- `AudioPlayer.get_volume` (`src/core/audio_player.py`, lines 321-328). -/
def get_volume (st : PlayerState) : ℚ := st.volume

/-- Track path of the end-to-end scheduling scenario of the spec. -/
def scenario_path : String := "album/track01.mp3"

/-- Scenario configuration: draft chunk length 20s, lead 5s (upgrade
parameters at their defaults, upgrades enabled). -/
def scenario_config : SchedulerConfig :=
  { subtitle_chunk_lead_seconds := 5
    subtitle_preview_seconds := 20
    base_chunk_seconds := 45
    upgrade_start_after_seconds := 60
    enable_full_transcription := true }

/-- Playback facts during the scenario: a 120-second track playing,
not paused, mixer busy. -/
def scenario_playback (pos : ℚ) : PlaybackInputs :=
  { is_playing := true
    is_paused := false
    position := pos
    current_duration := 120
    mixer_busy := true
    playlist_nonempty := true }

/-- Coordinator state right after `_on_subtitle_needed` started
transcription for the scenario track with no existing captions: both
per-path counters at 0, the immediate `[0, 20)` draft job enqueued and
its key in flight. -/
def scenario_start_state : CoordState :=
  { current_generation := 0
    current_file := some scenario_path
    current_subtitles := []
    subtitle_cache := []
    transcribing_paths := [scenario_path]
    inflight := [job_key scenario_path 0 "base" 0]
    urgent_queue := [⟨scenario_path, 0, 20, "base", 0⟩]
    bg_queue := []
    tiny_next_start := [(scenario_path, 0)]
    base_next_start := [(scenario_path, 0)]
    closing_ui := false
    loading_folder := false
    was_playing_track := true
    handling_auto_next := false }

/-- The position ticks 0, 5, 10, ..., 120 of the scenario. -/
def scenario_positions : List ℚ :=
  [0, 5, 10, 15, 20, 25, 30, 35, 40, 45, 50, 55, 60, 65, 70, 75, 80,
   85, 90, 95, 100, 105, 110, 115, 120]

/-- The coordinator state after running the scheduler tick over every
scenario position. -/
def scenario_final : CoordState :=
  scenario_positions.foldl
    (fun st pos => tick_transcription_scheduler scenario_config st (scenario_playback pos))
    scenario_start_state

/-- The starts of all draft (urgent) chunk jobs requested during the
scenario, in request order. -/
def scenario_requested_starts : List ℤ :=
  scenario_final.urgent_queue.map (fun j => j.start)

/-- The demo timeline `[(0, 2, "a"), (2.5, 4, "b")]` of the spec's
active-caption lookup property. -/
def demo_caption_a : Subtitle := ⟨1, 0, 2, "a"⟩

/-- Second caption of the demo timeline, covering `[2.5, 4]`. -/
def demo_caption_b : Subtitle := ⟨2, 5/2, 4, "b"⟩

/-- The demo timeline itself. -/
def demo_timeline : List Subtitle := [demo_caption_a, demo_caption_b]

lemma find_subtitle_none_iff (l : List Subtitle) (t : ℚ) :
    find_subtitle_by_time l t = none ↔
      ∀ s ∈ l, ¬(s.start_time ≤ t ∧ t ≤ s.end_time) := by
  induction l with
  | nil => simp [find_subtitle_by_time]
  | cons c rest ih =>
    by_cases h : c.start_time ≤ t ∧ t ≤ c.end_time
    · simp [find_subtitle_by_time, h]
    · rw [find_subtitle_by_time, if_neg h, ih]
      simp only [List.forall_mem_cons, iff_and_self]
      intro _
      exact h

lemma find_subtitle_some_first (l : List Subtitle) (t : ℚ) (s : Subtitle) :
    find_subtitle_by_time l t = some s →
      ∃ l1 l2, l = l1 ++ s :: l2 ∧ (s.start_time ≤ t ∧ t ≤ s.end_time)
        ∧ ∀ u ∈ l1, ¬(u.start_time ≤ t ∧ t ≤ u.end_time) := by
  induction l with
  | nil => simp [find_subtitle_by_time]
  | cons c rest ih =>
    by_cases h : c.start_time ≤ t ∧ t ≤ c.end_time
    · intro he
      rw [find_subtitle_by_time, if_pos h] at he
      obtain rfl : c = s := Option.some.inj he
      exact ⟨[], rest, rfl, h, by simp⟩
    · intro he
      rw [find_subtitle_by_time, if_neg h] at he
      obtain ⟨l1, l2, hsplit, hsat, hbefore⟩ := ih he
      refine ⟨c :: l1, l2, by simp [hsplit], hsat, ?_⟩
      intro u hu
      rcases List.mem_cons.mp hu with rfl | hu'
      · exact h
      · exact hbefore u hu'

/-- C7: `find_subtitle_by_time` returns the first caption in list order
whose interval `[start_time, end_time]` contains the position, and
`none` exactly when no caption's interval does; on the timeline
`[(0, 2, "a"), (2.5, 4, "b")]` it yields `"a"` at 1.0, `none` at 2.2
and `"b"` at 3.0. -/
theorem find_active_first_containing :
    (∀ (l : List Subtitle) (t : ℚ),
      (find_subtitle_by_time l t = none ↔ ∀ s ∈ l, ¬(s.start_time ≤ t ∧ t ≤ s.end_time))
      ∧ ∀ s, find_subtitle_by_time l t = some s →
          ∃ l1 l2, l = l1 ++ s :: l2 ∧ (s.start_time ≤ t ∧ t ≤ s.end_time)
            ∧ ∀ u ∈ l1, ¬(u.start_time ≤ t ∧ t ≤ u.end_time))
    ∧ find_subtitle_by_time demo_timeline 1 = some demo_caption_a
    ∧ find_subtitle_by_time demo_timeline (11/5) = none
    ∧ find_subtitle_by_time demo_timeline 3 = some demo_caption_b := by
  refine ⟨fun l t => ⟨find_subtitle_none_iff l t, find_subtitle_some_first l t⟩, ?_, ?_, ?_⟩
  · norm_num [find_subtitle_by_time, demo_timeline, demo_caption_a]
  · norm_num [find_subtitle_by_time, demo_timeline, demo_caption_a, demo_caption_b]
  · norm_num [find_subtitle_by_time, demo_timeline, demo_caption_a, demo_caption_b]

/-- C7 witness: the demo lookups, via the theorem. -/
theorem find_active_first_containing_witness :
    find_subtitle_by_time demo_timeline 1 = some demo_caption_a
    ∧ find_subtitle_by_time demo_timeline (11/5) = none :=
  ⟨find_active_first_containing.2.1, find_active_first_containing.2.2.1⟩

lemma volume_bounds_foldl (vs : List ℚ) (st : PlayerState)
    (h0 : 0 ≤ st.volume) (h1 : st.volume ≤ 1) :
    0 ≤ (List.foldl set_volume st vs).volume ∧ (List.foldl set_volume st vs).volume ≤ 1 := by
  induction vs generalizing st with
  | nil => exact ⟨h0, h1⟩
  | cons v rest ih =>
    refine ih (set_volume st v) (le_max_left 0 _) ?_
    exact max_le (by norm_num) (min_le_left 1 v)

/-- C10: `set_volume` stores exactly `max(0.0, min(1.0, v))` (what
`get_volume` then returns), and after any sequence of `set_volume`
calls starting from a fresh player the stored volume lies in `[0, 1]`. -/
theorem set_volume_clamps :
    (∀ (st : PlayerState) (v : ℚ),
      (set_volume st v).volume = max 0 (min 1 v)
      ∧ get_volume (set_volume st v) = max 0 (min 1 v))
    ∧ ∀ vs : List ℚ,
        0 ≤ (List.foldl set_volume initial_player vs).volume
        ∧ (List.foldl set_volume initial_player vs).volume ≤ 1 := by
  refine ⟨fun st v => ⟨rfl, rfl⟩, fun vs => ?_⟩
  exact volume_bounds_foldl vs initial_player (by norm_num [initial_player]) (by norm_num [initial_player])

/-- C9: `load_file` on a missing file or an unsupported (lower-cased)
extension returns `False` and leaves the whole player state unchanged. -/
theorem load_file_failure_preserves_state (fs : FileSystem) (st : PlayerState) (p : String)
    (h : fs.path_exists p = false ∨ lower_string (path_suffix p) ∉ supported_formats) :
    load_file fs st p = (false, st) := by
  rcases h with h | h
  · simp [load_file, h]
  · unfold load_file
    by_cases he : fs.path_exists p
    · simp [he, h]
    · simp [he]

/-- Oracle filesystem where every path exists. -/
def fs_all_exist : FileSystem :=
  { path_exists := fun _ => true
    srt_parse := fun _ => .error ()
    audio_duration := fun _ => .error () }

/-- Oracle filesystem where no path exists. -/
def fs_none_exist : FileSystem :=
  { path_exists := fun _ => false
    srt_parse := fun _ => .error ()
    audio_duration := fun _ => .error () }

/-- C9 witness: a `.ogg` file (unsupported extension) and a missing
`.mp3` file are both rejected with the state intact. -/
theorem load_file_failure_preserves_state_witness :
    load_file fs_all_exist initial_player "music/Song.OGG" = (false, initial_player)
    ∧ load_file fs_none_exist initial_player "music/song.mp3" = (false, initial_player) := by
  constructor
  · exact load_file_failure_preserves_state fs_all_exist initial_player "music/Song.OGG"
      (Or.inr (by decide))
  · exact load_file_failure_preserves_state fs_none_exist initial_player "music/song.mp3"
      (Or.inl rfl)

lemma mark_inflight_done_cache (st : CoordState) (p : String) (s : ℤ) (m : String) (g : ℤ) :
    (mark_inflight_done st p s m g).subtitle_cache = st.subtitle_cache
    ∧ (mark_inflight_done st p s m g).current_subtitles = st.current_subtitles :=
  ⟨rfl, rfl⟩

lemma is_stale_job_of_mismatch (st : CoordState) (path : String) (generation : ℤ)
    (h : generation ≠ st.current_generation ∨ st.current_file ≠ some path) :
    is_stale_job st path generation = true := by
  unfold is_stale_job
  rcases h with h | h
  · simp [h]
  · by_cases hg : generation ≠ st.current_generation
    · simp [hg]
    · simp [hg, h]

/-- C2: a chunk job whose generation no longer matches the
coordinator's, or whose path is no longer the active file, leaves every
cached timeline (and the live subtitle list) exactly as it was,
whatever the extraction and ASR outcomes were. -/
theorem stale_job_mutates_no_timeline (st : CoordState) (job : ChunkJob)
    (extract_ok : Bool) (asr : Except String (List Subtitle))
    (h : job.generation ≠ st.current_generation ∨ st.current_file ≠ some job.path) :
    (transcription_worker_step st job extract_ok asr).subtitle_cache = st.subtitle_cache
    ∧ (transcription_worker_step st job extract_ok asr).current_subtitles
        = st.current_subtitles := by
  have hst := is_stale_job_of_mismatch st job.path job.generation h
  unfold transcription_worker_step
  by_cases h0 : job.path = "" ∨ job.seconds ≤ 0
  · simp [h0, mark_inflight_done]
  · simp [h0, hst, mark_inflight_done]

/-- A coordinator state used for concrete staleness and dedup checks. -/
def demo_coord_state : CoordState :=
  { current_generation := 1
    current_file := some "album/other.mp3"
    current_subtitles := []
    subtitle_cache := [("album/track01.mp3", [⟨1, 0, 2, "a"⟩])]
    transcribing_paths := ["album/other.mp3"]
    inflight := [job_key "album/track01.mp3" 40 "base" 0]
    urgent_queue := []
    bg_queue := []
    tiny_next_start := []
    base_next_start := []
    closing_ui := false
    loading_folder := false
    was_playing_track := true
    handling_auto_next := false }

/-- C2 witness: a generation-0 job for a track that is no longer
active, completing successfully, changes no timeline. -/
theorem stale_job_mutates_no_timeline_witness :
    (transcription_worker_step demo_coord_state ⟨"album/track01.mp3", 40, 20, "base", 0⟩
        true (.ok [⟨1, 1, 2, "hello"⟩])).subtitle_cache = demo_coord_state.subtitle_cache
    ∧ (transcription_worker_step demo_coord_state ⟨"album/track01.mp3", 40, 20, "base", 0⟩
        true (.ok [⟨1, 1, 2, "hello"⟩])).current_subtitles
        = demo_coord_state.current_subtitles :=
  stale_job_mutates_no_timeline demo_coord_state ⟨"album/track01.mp3", 40, 20, "base", 0⟩
    true (.ok [⟨1, 1, 2, "hello"⟩]) (Or.inl (by decide))

/-- C4: enqueueing a chunk job whose `(path, start, model, generation)`
key is already in flight is a complete no-op; hence re-enqueueing the
same key right away changes nothing, and the in-flight key set stays
duplicate-free. -/
theorem enqueue_chunk_job_inflight_dedup (st : CoordState) (p : String) (s sec : ℤ)
    (m : String) (g : ℤ) (u u' : Bool) (h : st.inflight.Nodup) :
    enqueue_chunk_job (enqueue_chunk_job st p s sec m g u) p s sec m g u'
      = enqueue_chunk_job st p s sec m g u
    ∧ (enqueue_chunk_job st p s sec m g u).inflight.Nodup
    ∧ (job_key p s m g ∈ st.inflight → enqueue_chunk_job st p s sec m g u = st) := by
  by_cases hsec : sec ≤ 0
  · simp [enqueue_chunk_job, hsec, h]
  · by_cases hk : job_key p s m g ∈ st.inflight
    · simp [enqueue_chunk_job, hsec, hk, h]
    · refine ⟨?_, ?_, fun hmem => absurd hmem hk⟩
      · have hmem' : job_key p s m g ∈ (enqueue_chunk_job st p s sec m g u).inflight := by
          cases u <;> simp [enqueue_chunk_job, hsec, hk]
        rw [enqueue_chunk_job, if_neg hsec, if_pos hmem']
      · cases u <;> simp [enqueue_chunk_job, hsec, hk, h]

/-- C4 witness: re-enqueueing the in-flight `(path, 40, "base", 0)` job
of the demo state is a no-op. -/
theorem enqueue_chunk_job_inflight_dedup_witness :
    enqueue_chunk_job demo_coord_state "album/track01.mp3" 40 20 "base" 0 true
      = demo_coord_state :=
  (enqueue_chunk_job_inflight_dedup demo_coord_state "album/track01.mp3" 40 20 "base" 0
    true true (by decide)).2.2 (by decide)

lemma scenario_trace_eval :
    scenario_requested_starts = [0, 20, 40, 60, 80, 100, 120] := by
  norm_num +decide [scenario_requested_starts, scenario_final, scenario_positions,
    scenario_start_state, scenario_config, scenario_playback, scenario_path,
    tick_transcription_scheduler, enqueue_chunk_job, job_key, get_cached_coverage,
    assoc_get, assoc_getD, assoc_set, py_int, rat_floor_z, max_end_time, List.foldl]

/-- C5 counterexample: in the 120-second scenario (draft chunk 20s,
lead 5s, ticks 0,5,...,120) the qt scheduler requests a seventh draft
chunk starting at 120 — at the track duration — so neither are exactly
six chunks requested nor does every requested window start before
`duration_seconds`. -/
theorem scheduler_requests_start_at_duration :
    (120 : ℤ) ∈ scenario_requested_starts
    ∧ scenario_requested_starts ≠ [0, 20, 40, 60, 80, 100] := by
  rw [scenario_trace_eval]
  decide

/-- C5 amended: the scenario's position ticks request seven draft
chunks, at starts 0, 20, 40, 60, 80, 100 and 120 — the scheduler has no
duration bound and the last requested window begins exactly at the
track duration; no upgrade (background) chunk is requested. -/
theorem scheduler_scenario_requested_chunks :
    scenario_requested_starts = [0, 20, 40, 60, 80, 100, 120]
    ∧ scenario_final.bg_queue = [] := by
  refine ⟨scenario_trace_eval, ?_⟩
  norm_num +decide [scenario_final, scenario_positions,
    scenario_start_state, scenario_config, scenario_playback, scenario_path,
    tick_transcription_scheduler, enqueue_chunk_job, job_key, get_cached_coverage,
    assoc_get, assoc_getD, assoc_set, py_int, rat_floor_z, max_end_time, List.foldl]

lemma mem_insert_sorted {x c : Subtitle} {l : List Subtitle} :
    x ∈ insert_sorted c l ↔ x = c ∨ x ∈ l := by
  induction l with
  | nil => simp [insert_sorted]
  | cons d ds ih =>
    by_cases hle : pair_le (sort_key c) (sort_key d)
    · simp [insert_sorted, hle]
    · simp only [insert_sorted, if_neg hle, List.mem_cons, ih]
      tauto

lemma mem_sort_subtitles {x : Subtitle} {l : List Subtitle} :
    x ∈ sort_subtitles l ↔ x ∈ l := by
  induction l with
  | nil => simp [sort_subtitles]
  | cons c cs ih => simp [sort_subtitles, mem_insert_sorted, ih]

lemma dedup_pass_rep (l : List Subtitle) :
    ∀ (last : Option (ℤ × ℤ × String)) (x : Subtitle), x ∈ l →
      (∃ y ∈ dedup_pass last l, dedup_key y = dedup_key x)
      ∨ some (dedup_key x) = last := by
  induction l with
  | nil => intro last x hx; cases hx
  | cons s rest ih =>
    intro last x hx
    by_cases hk : some (dedup_key s) = last
    · rw [dedup_pass, if_pos hk]
      rcases List.mem_cons.mp hx with rfl | hx'
      · exact Or.inr hk
      · exact ih last x hx'
    · rw [dedup_pass, if_neg hk]
      rcases List.mem_cons.mp hx with rfl | hx'
      · exact Or.inl ⟨x, List.mem_cons_self _ _, rfl⟩
      · rcases ih (some (dedup_key s)) x hx' with ⟨y, hy, hky⟩ | heq
        · exact Or.inl ⟨y, List.mem_cons_of_mem _ hy, hky⟩
        · exact Or.inl ⟨s, List.mem_cons_self _ _, (Option.some.inj heq).symm⟩

/-- Closed-interval intersection of a caption's `[start_time, end_time]`
with the merge window `[start_seconds, end_seconds]`. -/
def intersects_closed (s : Subtitle) (start_seconds end_seconds : ℤ) : Prop :=
  (start_seconds : ℚ) ≤ s.end_time ∧ s.start_time ≤ (end_seconds : ℚ)

lemma out_of_window_iff (a b : ℤ) (s : Subtitle) :
    out_of_window a b s = true ↔ ¬ intersects_closed s a b := by
  simp only [out_of_window, intersects_closed, Bool.or_eq_true, decide_eq_true_eq,
    not_and_or, not_le]

/-- C1 amended: the upgraded-tier merge removes exactly the existing
captions whose closed interval meets the closed window
`[start_seconds, end_seconds]` — they have no influence on the result
(a caption starting exactly at the window end is removed too) — while
every existing caption not meeting the closed window survives into the
result (at least up to dedup identity). -/
theorem upgrade_merge_removes_closed_window (current new_subs : List Subtitle) (a b : ℤ) :
    (∀ s : Subtitle, out_of_window a b s = true ↔ ¬ intersects_closed s a b)
    ∧ merge_subtitles current new_subs a b "base"
        = merge_subtitles (current.filter fun s => out_of_window a b s) new_subs a b "base"
    ∧ ∀ s ∈ current, ¬ intersects_closed s a b →
        ∃ y ∈ merge_subtitles current new_subs a b "base", dedup_key y = dedup_key s := by
  refine ⟨out_of_window_iff a b, ?_, ?_⟩
  · simp [merge_subtitles, List.filter_filter]
  · intro s hs hni
    have hb : out_of_window a b s = true := (out_of_window_iff a b s).mpr hni
    have hmem : s ∈ (current.filter fun s => out_of_window a b s) ++ new_subs :=
      List.mem_append_left _ (List.mem_filter.mpr ⟨hs, hb⟩)
    have hmem' :
        s ∈ sort_subtitles ((current.filter fun s => out_of_window a b s) ++ new_subs) :=
      mem_sort_subtitles.mpr hmem
    have hrep := dedup_pass_rep _ none s hmem'
    rcases hrep with ⟨y, hy, hky⟩ | heq
    · exact ⟨y, by simpa [merge_subtitles] using hy, hky⟩
    · cases heq

/-- A caption safely past the `[0, 45]` window. -/
def later_caption : Subtitle := ⟨7, 50, 60, "later"⟩

/-- C1 witness: a caption over `[50, 60]` does not meet the closed
window `[0, 45]` and survives the upgraded-tier merge. -/
theorem upgrade_merge_removes_closed_window_witness :
    ∃ y ∈ merge_subtitles [later_caption] [] 0 45 "base",
      dedup_key y = dedup_key later_caption :=
  (upgrade_merge_removes_closed_window [later_caption] [] 0 45).2.2 later_caption
    (List.mem_singleton.mpr rfl) (by simp [intersects_closed, later_caption]; norm_num)

/-- Draft caption lying inside `[45, 90)` whose start sits exactly on
the upgrade-window boundary. -/
def draft_caption_at_45 : Subtitle := ⟨1, 45, 50, "x"⟩

/-- Incoming upgraded caption inside `[0, 45)`. -/
def upgrade_fill_caption : Subtitle := ⟨1, 0, 44, "u"⟩

/-- C1 counterexample: merging an upgrade chunk over `[0, 45)` removes
the draft caption `[45, 50]` although its interval does not intersect
the half-open window `[0, 45)` and it lies inside `[45, 90)`. -/
theorem upgrade_merge_boundary_counterexample :
    merge_subtitles [draft_caption_at_45] [upgrade_fill_caption] 0 45 "base"
      = [upgrade_fill_caption]
    ∧ draft_caption_at_45
        ∉ merge_subtitles [draft_caption_at_45] [upgrade_fill_caption] 0 45 "base"
    ∧ draft_caption_at_45.start_time = 45 := by
  have heval :
      merge_subtitles [draft_caption_at_45] [upgrade_fill_caption] 0 45 "base"
        = [upgrade_fill_caption] := by
    norm_num +decide [merge_subtitles, out_of_window, sort_subtitles, insert_sorted,
      dedup_pass, pair_le, sort_key, dedup_key, round_milli, rat_floor_z,
      draft_caption_at_45, upgrade_fill_caption]
  refine ⟨heval, ?_, rfl⟩
  rw [heval]
  decide

lemma dedup_pass_chain (l : List Subtitle) :
    ∀ last : Option (ℤ × ℤ × String),
      List.Chain' (fun x y => dedup_key x ≠ dedup_key y) (dedup_pass last l)
      ∧ ∀ y, (dedup_pass last l).head? = some y → some (dedup_key y) ≠ last := by
  induction l with
  | nil => intro last; simp [dedup_pass]
  | cons s rest ih =>
    intro last
    by_cases hk : some (dedup_key s) = last
    · rw [dedup_pass, if_pos hk]
      exact ih last
    · rw [dedup_pass, if_neg hk]
      obtain ⟨hchain, hhead⟩ := ih (some (dedup_key s))
      refine ⟨List.chain'_cons'.mpr ⟨?_, hchain⟩, ?_⟩
      · intro y hy he
        exact hhead y hy (by rw [he])
      · intro y hy
        obtain rfl : s = y := by simpa using hy
        exact hk

/-- C6 amended: after every merge (either model), no two CONSECUTIVE
elements of the resulting timeline share the dedup identity tuple
`(rounded start, rounded end, text)`. -/
theorem merge_no_consecutive_duplicate_keys
    (current new_subs : List Subtitle) (a b : ℤ) (model : String) :
    List.Chain' (fun x y => dedup_key x ≠ dedup_key y)
      (merge_subtitles current new_subs a b model) := by
  simp only [merge_subtitles]
  exact (dedup_pass_chain _ none).1

/-- Captions sharing `(start, end)` used to exhibit a surviving
non-consecutive duplicate pair. -/
def dup_caption_a1 : Subtitle := ⟨1, 1, 2, "a"⟩

/-- The interposed caption with the same interval but different text. -/
def dup_caption_b : Subtitle := ⟨2, 1, 2, "b"⟩

/-- The incoming duplicate of `dup_caption_a1` (different index only,
same dedup key). -/
def dup_caption_a2 : Subtitle := ⟨3, 1, 2, "a"⟩

/-- C6 counterexample: a merge result containing two non-adjacent
elements with the same identity tuple — global uniqueness fails (only
consecutive duplicates are removed). -/
theorem merge_global_duplicate_counterexample :
    merge_subtitles [dup_caption_a1, dup_caption_b] [dup_caption_a2] 10 20 "base"
      = [dup_caption_a1, dup_caption_b, dup_caption_a2]
    ∧ dedup_key dup_caption_a1 = dedup_key dup_caption_a2
    ∧ ¬ List.Pairwise (fun x y => dedup_key x ≠ dedup_key y)
        (merge_subtitles [dup_caption_a1, dup_caption_b] [dup_caption_a2] 10 20 "base") := by
  have heval :
      merge_subtitles [dup_caption_a1, dup_caption_b] [dup_caption_a2] 10 20 "base"
        = [dup_caption_a1, dup_caption_b, dup_caption_a2] := by
    norm_num +decide [merge_subtitles, out_of_window, sort_subtitles, insert_sorted,
      dedup_pass, pair_le, sort_key, dedup_key, round_milli, rat_floor_z,
      dup_caption_a1, dup_caption_b, dup_caption_a2]
  refine ⟨heval, by norm_num [dedup_key, dup_caption_a1, dup_caption_a2], ?_⟩
  rw [heval]
  intro hp
  have := (List.pairwise_cons.mp hp).1 dup_caption_a2 (by decide)
  exact this (by norm_num [dedup_key, dup_caption_a1, dup_caption_a2])

lemma assoc_get_set {α : Type} (l : List (String × α)) (k : String) (v : α) :
    assoc_get (assoc_set l k v) k = some v := by
  induction l with
  | nil => simp [assoc_set, assoc_get]
  | cons p rest ih =>
    by_cases hk : p.1 = k
    · simp [assoc_set, assoc_get, hk]
    · simp only [assoc_set, assoc_get]
      rw [if_neg hk, assoc_get, if_neg hk]
      exact ih

/-- C8 amended: a zero-caption chunk result for `[s, s+len)` leaves the
caches and the live subtitles untouched and moves the track's next
draft chunk start to `max(previous, s+len)` — exactly `s+len` whenever
the counter had not already moved past it (in particular it never stays
at `s`, so the window is not retried); in the qt worker a zero-caption
ASR success likewise never touches the subtitle cache. -/
theorem silence_advances_next_chunk_start (st : TkState) (path : String) (s len : ℤ) :
    (tk_handle_chunk_result st path s len []).subtitle_cache = st.subtitle_cache
    ∧ (tk_handle_chunk_result st path s len []).current_subtitles = st.current_subtitles
    ∧ assoc_getD (tk_handle_chunk_result st path s len []).preview_next_start path 0
        = max (assoc_getD st.preview_next_start path 0) ((s + len : ℤ) : ℚ)
    ∧ (assoc_getD st.preview_next_start path 0 ≤ ((s + len : ℤ) : ℚ) →
        assoc_getD (tk_handle_chunk_result st path s len []).preview_next_start path 0
          = ((s + len : ℤ) : ℚ))
    ∧ ∀ (st2 : CoordState) (job : ChunkJob) (extract_ok : Bool),
        (transcription_worker_step st2 job extract_ok (.ok [])).subtitle_cache
          = st2.subtitle_cache := by
  have hadv :
      assoc_getD (tk_handle_chunk_result st path s len []).preview_next_start path 0
        = max (assoc_getD st.preview_next_start path 0) ((s + len : ℤ) : ℚ) := by
    simp [tk_handle_chunk_result, tk_advance_preview_start, assoc_getD, assoc_get_set]
  refine ⟨rfl, rfl, hadv, ?_, ?_⟩
  · intro hle
    rw [hadv, max_eq_right hle]
  · intro st2 job extract_ok
    by_cases h0 : job.path = "" ∨ job.seconds ≤ 0
    · simp [transcription_worker_step, h0, mark_inflight_done]
    · by_cases hs1 : is_stale_job st2 job.path job.generation
      · simp [transcription_worker_step, h0, hs1, mark_inflight_done]
      · by_cases he : extract_ok
        · simp [transcription_worker_step, h0, hs1, he, mark_inflight_done,
            offset_subtitles, offset_subtitles_from]
        · simp [transcription_worker_step, h0, hs1, he, mark_inflight_done]

/-- Tk state whose draft counter already sits at 30 (the start of the
pending `[30, 50)` window). -/
def tk_demo_state : TkState :=
  { current_file := some "album/track01.mp3"
    current_subtitles := []
    subtitle_cache := []
    preview_next_start := [("album/track01.mp3", 30)] }

/-- C8 witness: the `[30, 50)` window with zero captions advances the
counter to 50 and leaves the cache untouched. -/
theorem silence_advances_next_chunk_start_witness :
    assoc_getD (tk_handle_chunk_result tk_demo_state "album/track01.mp3" 30 20
        []).preview_next_start "album/track01.mp3" 0 = 50
    ∧ (tk_handle_chunk_result tk_demo_state "album/track01.mp3" 30 20 []).subtitle_cache
        = tk_demo_state.subtitle_cache := by
  have h := silence_advances_next_chunk_start tk_demo_state "album/track01.mp3" 30 20
  refine ⟨?_, h.1⟩
  have h50 := h.2.2.2.1 (by norm_num [tk_demo_state, assoc_getD, assoc_get])
  rw [h50]
  norm_num

/-- Tk state whose draft counter already moved to 100. -/
def tk_far_state : TkState :=
  { current_file := some "album/track01.mp3"
    current_subtitles := []
    subtitle_cache := []
    preview_next_start := [("album/track01.mp3", 100)] }

/-- C8 counterexample: with the counter already at 100, a zero-caption
result for `[30, 50)` leaves it at 100, not at `s+len = 50` — the code
stores `max(old, s+len)`, not always `s+len`. -/
theorem silence_counter_max_counterexample :
    assoc_getD (tk_handle_chunk_result tk_far_state "album/track01.mp3" 30 20
        []).preview_next_start "album/track01.mp3" 0 = 100
    ∧ (100 : ℚ) ≠ 50 := by
  constructor
  · have h :
        assoc_getD (tk_handle_chunk_result tk_far_state "album/track01.mp3" 30 20
            []).preview_next_start "album/track01.mp3" 0
          = max (100 : ℚ) ((30 + 20 : ℤ) : ℚ) := by
      simp [tk_handle_chunk_result, tk_advance_preview_start, assoc_getD, assoc_get_set,
        tk_far_state, assoc_get]
    rw [h]
    norm_num
  · norm_num

/-- Captions with equal `(start, end)` but different texts, outside the
`[10, 20]` window. -/
def idem_caption_x : Subtitle := ⟨1, 30, 31, "x"⟩

/-- Companion of `idem_caption_x`. -/
def idem_caption_y : Subtitle := ⟨2, 30, 31, "y"⟩

/-- In-window variant for the draft-tier half of the counterexample. -/
def idem_caption_in_x : Subtitle := ⟨1, 12, 13, "x"⟩

/-- Companion of `idem_caption_in_x`. -/
def idem_caption_in_y : Subtitle := ⟨2, 12, 13, "y"⟩

/-- C3 counterexample: merging the same chunk result twice is NOT
always the same as merging it once — for the upgraded (`"base"`) model
with a result lying outside the window, and for the draft (append-only)
model even with an in-window result, the duplicate captions with equal
`(start, end)` but different texts survive the consecutive-only dedup
and the timeline grows. -/
theorem merge_idempotence_counterexample :
    merge_subtitles (merge_subtitles [] [idem_caption_x, idem_caption_y] 10 20 "base")
        [idem_caption_x, idem_caption_y] 10 20 "base"
      ≠ merge_subtitles [] [idem_caption_x, idem_caption_y] 10 20 "base"
    ∧ merge_subtitles
          (merge_subtitles [] [idem_caption_in_x, idem_caption_in_y] 10 20 "tiny")
          [idem_caption_in_x, idem_caption_in_y] 10 20 "tiny"
      ≠ merge_subtitles [] [idem_caption_in_x, idem_caption_in_y] 10 20 "tiny" := by
  have h1 :
      merge_subtitles [] [idem_caption_x, idem_caption_y] 10 20 "base"
        = [idem_caption_x, idem_caption_y] := by
    norm_num +decide [merge_subtitles, out_of_window, sort_subtitles, insert_sorted,
      dedup_pass, pair_le, sort_key, dedup_key, round_milli, rat_floor_z,
      idem_caption_x, idem_caption_y]
  have h2 :
      merge_subtitles [idem_caption_x, idem_caption_y]
          [idem_caption_x, idem_caption_y] 10 20 "base"
        = [idem_caption_x, idem_caption_y, idem_caption_x, idem_caption_y] := by
    norm_num +decide [merge_subtitles, out_of_window, sort_subtitles, insert_sorted,
      dedup_pass, pair_le, sort_key, dedup_key, round_milli, rat_floor_z,
      idem_caption_x, idem_caption_y]
  have h3 :
      merge_subtitles [] [idem_caption_in_x, idem_caption_in_y] 10 20 "tiny"
        = [idem_caption_in_x, idem_caption_in_y] := by
    norm_num +decide [merge_subtitles, out_of_window, sort_subtitles, insert_sorted,
      dedup_pass, pair_le, sort_key, dedup_key, round_milli, rat_floor_z,
      idem_caption_in_x, idem_caption_in_y]
  have h4 :
      merge_subtitles [idem_caption_in_x, idem_caption_in_y]
          [idem_caption_in_x, idem_caption_in_y] 10 20 "tiny"
        = [idem_caption_in_x, idem_caption_in_y, idem_caption_in_x, idem_caption_in_y] := by
    norm_num +decide [merge_subtitles, out_of_window, sort_subtitles, insert_sorted,
      dedup_pass, pair_le, sort_key, dedup_key, round_milli, rat_floor_z,
      idem_caption_in_x, idem_caption_in_y]
  constructor
  · rw [h1, h2]
    decide
  · rw [h3, h4]
    decide

lemma pair_le_refl (a : ℚ × ℚ) : pair_le a a := Or.inr ⟨rfl, le_refl _⟩

lemma pair_le_total (a b : ℚ × ℚ) : pair_le a b ∨ pair_le b a := by
  rcases lt_trichotomy a.1 b.1 with h | h | h
  · exact Or.inl (Or.inl h)
  · rcases le_total a.2 b.2 with h2 | h2
    · exact Or.inl (Or.inr ⟨h, h2⟩)
    · exact Or.inr (Or.inr ⟨h.symm, h2⟩)
  · exact Or.inr (Or.inl h)

lemma pair_le_trans {a b c : ℚ × ℚ} (h1 : pair_le a b) (h2 : pair_le b c) : pair_le a c := by
  rcases h1 with h1 | ⟨he1, hl1⟩
  · rcases h2 with h2 | ⟨he2, _⟩
    · exact Or.inl (h1.trans h2)
    · exact Or.inl (he2 ▸ h1)
  · rcases h2 with h2 | ⟨he2, hl2⟩
    · exact Or.inl (he1 ▸ h2)
    · exact Or.inr ⟨he1.trans he2, hl1.trans hl2⟩

lemma pair_le_antisymm {a b : ℚ × ℚ} (h1 : pair_le a b) (h2 : pair_le b a) : a = b := by
  rcases h1 with h1 | ⟨he1, hl1⟩
  · rcases h2 with h2 | ⟨he2, _⟩
    · exact absurd (h1.trans h2) (lt_irrefl _)
    · exact absurd h1 (he2 ▸ lt_irrefl _)
  · rcases h2 with h2 | ⟨he2, hl2⟩
    · exact absurd h2 (he1 ▸ lt_irrefl _)
    · exact Prod.ext he1 (le_antisymm hl1 hl2)

lemma pair_le_of_not_le {a b : ℚ × ℚ} (h : ¬ pair_le a b) : pair_le b a :=
  (pair_le_total a b).resolve_left h

/-- Sortedness by the `(start_time, end_time)` key. -/
def sorted_by_key (l : List Subtitle) : Prop :=
  List.Pairwise (fun x y => pair_le (sort_key x) (sort_key y)) l

lemma sorted_insert_sorted (c : Subtitle) {l : List Subtitle} (h : sorted_by_key l) :
    sorted_by_key (insert_sorted c l) := by
  induction l with
  | nil => simp [insert_sorted, sorted_by_key]
  | cons d ds ih =>
    obtain ⟨hd, hds⟩ := List.pairwise_cons.mp h
    by_cases hle : pair_le (sort_key c) (sort_key d)
    · rw [insert_sorted, if_pos hle]
      refine List.pairwise_cons.mpr ⟨?_, h⟩
      intro y hy
      rcases List.mem_cons.mp hy with rfl | hy'
      · exact hle
      · exact pair_le_trans hle (hd y hy')
    · rw [insert_sorted, if_neg hle]
      refine List.pairwise_cons.mpr ⟨?_, ih hds⟩
      intro y hy
      rcases mem_insert_sorted.mp hy with rfl | hy'
      · exact pair_le_of_not_le hle
      · exact hd y hy'

lemma sorted_sort_subtitles (l : List Subtitle) : sorted_by_key (sort_subtitles l) := by
  induction l with
  | nil => exact List.Pairwise.nil
  | cons c cs ih => exact sorted_insert_sorted c ih

/-- The elements of `l` whose sort key is exactly `κ`, in order. -/
def filter_key (κ : ℚ × ℚ) (l : List Subtitle) : List Subtitle :=
  l.filter (fun s => decide (sort_key s = κ))

lemma filter_key_nil (κ : ℚ × ℚ) : filter_key κ [] = [] := rfl

lemma filter_key_cons (κ : ℚ × ℚ) (s : Subtitle) (l : List Subtitle) :
    filter_key κ (s :: l)
      = if sort_key s = κ then s :: filter_key κ l else filter_key κ l := by
  by_cases h : sort_key s = κ
  · simp [filter_key, h]
  · simp [filter_key, h]

lemma filter_key_insert_sorted (κ : ℚ × ℚ) (c : Subtitle) (l : List Subtitle) :
    filter_key κ (insert_sorted c l)
      = if sort_key c = κ then c :: filter_key κ l else filter_key κ l := by
  induction l with
  | nil => simp [insert_sorted, filter_key_cons, filter_key_nil]
  | cons d ds ih =>
    by_cases hle : pair_le (sort_key c) (sort_key d)
    · rw [insert_sorted, if_pos hle, filter_key_cons, filter_key_cons]
    · rw [insert_sorted, if_neg hle, filter_key_cons, ih]
      by_cases hc : sort_key c = κ
      · by_cases hd : sort_key d = κ
        · exact absurd (hc.trans hd.symm ▸ pair_le_refl (sort_key c)) hle
        · rw [if_neg hd, if_pos hc, if_pos hc, filter_key_cons, if_neg hd]
      · by_cases hd : sort_key d = κ
        · rw [if_pos hd, if_neg hc, if_neg hc, filter_key_cons, if_pos hd]
        · rw [if_neg hd, if_neg hc, if_neg hc, filter_key_cons, if_neg hd]

lemma filter_key_sort_subtitles (κ : ℚ × ℚ) (l : List Subtitle) :
    filter_key κ (sort_subtitles l) = filter_key κ l := by
  induction l with
  | nil => rfl
  | cons c cs ih =>
    rw [sort_subtitles, filter_key_insert_sorted, filter_key_cons, ih]

lemma filter_key_append (κ : ℚ × ℚ) (l1 l2 : List Subtitle) :
    filter_key κ (l1 ++ l2) = filter_key κ l1 ++ filter_key κ l2 := by
  simp [filter_key, List.filter_append]

lemma sorted_eq_of_filter_key_eq :
    ∀ l1 l2 : List Subtitle, sorted_by_key l1 → sorted_by_key l2 →
      (∀ κ, filter_key κ l1 = filter_key κ l2) → l1 = l2 := by
  intro l1
  induction l1 with
  | nil =>
    intro l2 _ _ h
    cases l2 with
    | nil => rfl
    | cons b t2 =>
      have hb := h (sort_key b)
      rw [filter_key_nil, filter_key_cons, if_pos rfl] at hb
      cases hb
  | cons a t1 ih =>
    intro l2 h1 h2 h
    cases l2 with
    | nil =>
      have ha := h (sort_key a)
      rw [filter_key_nil, filter_key_cons, if_pos rfl] at ha
      cases ha
    | cons b t2 =>
      obtain ⟨ha1, ht1⟩ := List.pairwise_cons.mp h1
      obtain ⟨hb1, ht2⟩ := List.pairwise_cons.mp h2
      have hkey : sort_key a = sort_key b := by
        have hmema : a ∈ filter_key (sort_key a) (b :: t2) := by
          rw [← h (sort_key a), filter_key_cons, if_pos rfl]
          exact List.mem_cons_self _ _
        have hmema' := List.mem_filter.mp hmema
        have hba : pair_le (sort_key b) (sort_key a) := by
          rcases List.mem_cons.mp hmema'.1 with rfl | hmem
          · exact pair_le_refl _
          · exact hb1 a hmem
        have hmemb : b ∈ filter_key (sort_key b) (a :: t1) := by
          rw [h (sort_key b), filter_key_cons, if_pos rfl]
          exact List.mem_cons_self _ _
        have hmemb' := List.mem_filter.mp hmemb
        have hab : pair_le (sort_key a) (sort_key b) := by
          rcases List.mem_cons.mp hmemb'.1 with rfl | hmem
          · exact pair_le_refl _
          · exact ha1 b hmem
        exact pair_le_antisymm hab hba
      have hfa := h (sort_key a)
      rw [filter_key_cons, if_pos rfl, filter_key_cons, if_pos hkey.symm] at hfa
      obtain ⟨rfl, hftails⟩ : a = b ∧ filter_key (sort_key a) t1 = filter_key (sort_key a) t2 :=
        ⟨(List.cons.injEq _ _ _ _ ▸ hfa).1, (List.cons.injEq _ _ _ _ ▸ hfa).2⟩
      have htails : ∀ κ, filter_key κ t1 = filter_key κ t2 := by
        intro κ
        by_cases hκ : κ = sort_key a
        · rw [hκ]
          exact hftails
        · have hκa : sort_key a ≠ κ := fun he => hκ he.symm
          have := h κ
          rwa [filter_key_cons, if_neg hκa, filter_key_cons, if_neg hκa] at this
      rw [ih t2 ht1 ht2 htails]

/-- `keep_k p last l`: `l` with exactly those elements dropped that the
dedup scan (run from `last`) would drop AND that satisfy `p`; the
running key evolves like the dedup scan's. -/
def keep_k (p : Subtitle → Bool) : Option (ℤ × ℤ × String) → List Subtitle → List Subtitle
  | _, [] => []
  | last, s :: rest =>
    if p s = true ∧ some (dedup_key s) = last then keep_k p last rest
    else s :: keep_k p (some (dedup_key s)) rest

lemma dedup_pass_keep_k (p : Subtitle → Bool) (l : List Subtitle) :
    ∀ last, dedup_pass last (keep_k p last l) = dedup_pass last l := by
  induction l with
  | nil => intro last; rfl
  | cons s rest ih =>
    intro last
    by_cases hc : p s = true ∧ some (dedup_key s) = last
    · rw [keep_k, if_pos hc, ih last, dedup_pass, if_pos hc.2]
    · rw [keep_k, if_neg hc]
      by_cases hk : some (dedup_key s) = last
      · rw [dedup_pass, if_pos hk, dedup_pass, if_pos hk, ← hk, ih (some (dedup_key s))]
      · rw [dedup_pass, if_neg hk, dedup_pass, if_neg hk, ih (some (dedup_key s))]

lemma keep_k_sublist (p : Subtitle → Bool) (l : List Subtitle) :
    ∀ last, List.Sublist (keep_k p last l) l := by
  induction l with
  | nil => intro last; exact List.Sublist.refl []
  | cons s rest ih =>
    intro last
    by_cases hc : p s = true ∧ some (dedup_key s) = last
    · rw [keep_k, if_pos hc]
      exact (ih last).cons s
    · rw [keep_k, if_neg hc]
      exact (ih (some (dedup_key s))).cons₂ s

lemma sorted_keep_k (p : Subtitle → Bool) {l : List Subtitle} (last : Option (ℤ × ℤ × String))
    (h : sorted_by_key l) : sorted_by_key (keep_k p last l) :=
  List.Pairwise.sublist (keep_k_sublist p l last) h

lemma filter_key_keep_k_true {p : Subtitle → Bool} {κ : ℚ × ℚ}
    (hp : ∀ s : Subtitle, sort_key s = κ → p s = true) (l : List Subtitle) :
    ∀ last, filter_key κ (keep_k p last l) = filter_key κ (dedup_pass last l) := by
  induction l with
  | nil => intro last; rfl
  | cons s rest ih =>
    intro last
    by_cases hk : some (dedup_key s) = last
    · by_cases hps : p s = true
      · rw [keep_k, if_pos ⟨hps, hk⟩, dedup_pass, if_pos hk, ih last]
      · have hsκ : sort_key s ≠ κ := fun he => hps (hp s he)
        rw [keep_k, if_neg (fun hc => hps hc.1), dedup_pass, if_pos hk,
          filter_key_cons, if_neg hsκ, ← hk, ih (some (dedup_key s))]
    · rw [keep_k, if_neg (fun hc => hk hc.2), dedup_pass, if_neg hk,
        filter_key_cons, filter_key_cons, ih (some (dedup_key s))]

lemma filter_key_keep_k_false {p : Subtitle → Bool} {κ : ℚ × ℚ}
    (hp : ∀ s : Subtitle, sort_key s = κ → p s = false) (l : List Subtitle) :
    ∀ last, filter_key κ (keep_k p last l) = filter_key κ l := by
  induction l with
  | nil => intro last; rfl
  | cons s rest ih =>
    intro last
    by_cases hc : p s = true ∧ some (dedup_key s) = last
    · have hsκ : sort_key s ≠ κ := by
        intro he
        rw [hp s he] at hc
        cases hc.1
      rw [keep_k, if_pos hc, filter_key_cons, if_neg hsκ, ih last]
    · rw [keep_k, if_neg hc, filter_key_cons, filter_key_cons, ih (some (dedup_key s))]

/-- `out_of_window` as a function of the sort key alone. -/
def out_of_window_pair (a b : ℤ) (κ : ℚ × ℚ) : Bool :=
  decide (κ.2 < (a : ℚ)) || decide ((b : ℚ) < κ.1)

lemma out_of_window_eq_pair (a b : ℤ) (s : Subtitle) :
    out_of_window a b s = out_of_window_pair a b (sort_key s) := rfl

lemma filter_key_filter_true {p : Subtitle → Bool} {κ : ℚ × ℚ}
    (hp : ∀ s : Subtitle, sort_key s = κ → p s = true) (l : List Subtitle) :
    filter_key κ (l.filter p) = filter_key κ l := by
  induction l with
  | nil => rfl
  | cons s rest ih =>
    by_cases hps : p s = true
    · rw [List.filter_cons_of_pos hps, filter_key_cons, filter_key_cons, ih]
    · have hsκ : sort_key s ≠ κ := fun he => hps (hp s he)
      rw [List.filter_cons_of_neg (fun hc => hps hc), filter_key_cons, if_neg hsκ, ih]

lemma filter_key_filter_false {p : Subtitle → Bool} {κ : ℚ × ℚ}
    (hp : ∀ s : Subtitle, sort_key s = κ → p s = false) (l : List Subtitle) :
    filter_key κ (l.filter p) = [] := by
  induction l with
  | nil => rfl
  | cons s rest ih =>
    by_cases hps : p s = true
    · have hsκ : sort_key s ≠ κ := by
        intro he
        rw [hp s he] at hps
        cases hps
      rw [List.filter_cons_of_pos hps, filter_key_cons, if_neg hsκ, ih]
    · rw [List.filter_cons_of_neg (fun hc => hps hc), ih]

lemma filter_key_nil_of_ne {κ : ℚ × ℚ} {l : List Subtitle}
    (h : ∀ s ∈ l, sort_key s ≠ κ) : filter_key κ l = [] := by
  induction l with
  | nil => rfl
  | cons s rest ih =>
    rw [filter_key_cons, if_neg (h s (List.mem_cons_self _ _))]
    exact ih fun s' hs' => h s' (List.mem_cons_of_mem _ hs')

lemma merge_subtitles_base_eq (current new_subs : List Subtitle) (a b : ℤ) :
    merge_subtitles current new_subs a b "base"
      = dedup_pass none
          (sort_subtitles ((current.filter fun s => out_of_window a b s) ++ new_subs)) := by
  simp [merge_subtitles]

/-- C3 amended: the upgraded-tier merge is idempotent whenever every
incoming caption's closed interval meets the closed merge window
`[start_seconds, end_seconds]` (the normal situation for a chunk
result): merging the same in-window result twice, with the same window,
yields the same timeline as merging it once. -/
theorem merge_idempotent_in_window (current new_subs : List Subtitle) (a b : ℤ)
    (hin : ∀ r ∈ new_subs, out_of_window a b r = false) :
    merge_subtitles (merge_subtitles current new_subs a b "base") new_subs a b "base"
      = merge_subtitles current new_subs a b "base" := by
  rw [merge_subtitles_base_eq current new_subs a b]
  rw [merge_subtitles_base_eq
    (dedup_pass none (sort_subtitles ((current.filter fun s => out_of_window a b s) ++ new_subs)))
    new_subs a b]
  have hkeep :
      sort_subtitles
          (((dedup_pass none
              (sort_subtitles ((current.filter fun s => out_of_window a b s) ++ new_subs))).filter
            (fun s => out_of_window a b s)) ++ new_subs)
        = keep_k (fun s => out_of_window a b s) none
            (sort_subtitles ((current.filter fun s => out_of_window a b s) ++ new_subs)) := by
    apply sorted_eq_of_filter_key_eq
    · exact sorted_sort_subtitles _
    · exact sorted_keep_k _ none (sorted_sort_subtitles _)
    · intro κ
      rw [filter_key_sort_subtitles, filter_key_append]
      by_cases hκ : out_of_window_pair a b κ = true
      · have hp_true : ∀ s : Subtitle, sort_key s = κ → out_of_window a b s = true := by
          intro s he
          rw [out_of_window_eq_pair, he]
          exact hκ
        have hnew : filter_key κ new_subs = [] := by
          apply filter_key_nil_of_ne
          intro r hr he
          have h1 := hp_true r he
          rw [hin r hr] at h1
          cases h1
        rw [hnew, List.append_nil, filter_key_filter_true hp_true,
          filter_key_keep_k_true hp_true]
      · have hκ' : out_of_window_pair a b κ = false := by
          cases hb : out_of_window_pair a b κ
          · rfl
          · exact absurd hb hκ
        have hp_false : ∀ s : Subtitle, sort_key s = κ → out_of_window a b s = false := by
          intro s he
          rw [out_of_window_eq_pair, he]
          exact hκ'
        rw [filter_key_filter_false hp_false, List.nil_append,
          filter_key_keep_k_false hp_false, filter_key_sort_subtitles, filter_key_append,
          filter_key_filter_false hp_false, List.nil_append]
  rw [hkeep, dedup_pass_keep_k]

/-- An existing caption far outside the `[10, 20]` demo window. -/
def far_caption : Subtitle := ⟨5, 100, 101, "far"⟩

/-- An incoming caption inside the `[10, 20]` demo window. -/
def window_caption : Subtitle := ⟨1, 12, 13, "w"⟩

/-- C3 witness: re-merging an in-window chunk result is a no-op. -/
theorem merge_idempotent_in_window_witness :
    merge_subtitles (merge_subtitles [far_caption] [window_caption] 10 20 "base")
        [window_caption] 10 20 "base"
      = merge_subtitles [far_caption] [window_caption] 10 20 "base" :=
  merge_idempotent_in_window [far_caption] [window_caption] 10 20 (by
    intro r hr
    obtain rfl : r = window_caption := by simpa using hr
    norm_num [out_of_window, window_caption])
